import Mathlib

/-!
Verification of the Scan Aggregation Engine of the osint-playground
repository (src/lib/search-aggregator.js), against its natural-language
specification.  The JavaScript is shallowly embedded: JS numbers are
modelled as rationals, JS objects as structures with Option-valued fields
(none models an absent property), and the single-threaded event-loop
execution of a scan as a fold over the sequence of observable events
(adapter settlements, the optional total-timeout rejection, finalization).
-/

namespace Osint

/-- JS truthiness of an optional string property: undefined/absent and the
empty string are falsy, every other string is truthy. -/
def truthy : Option String → Bool
  | none => false
  | some s => s != ""

/-- One finding, as produced by a `search` of an adapter and consumed by
result fusion (`deduplicateResults` / `scoreResults`).  Only the properties
the engine itself reads are modelled; the opaque payload
(id, source, type, timestamp, raw, ...) is irrelevant to every claim.
`confidenceLevel` is absent (`none`) until `scoreResults` assigns it. -/
structure Finding where
  url : Option String := none
  username : Option String := none
  email : Option String := none
  displayName : Option String := none
  bio : Option String := none
  location : Option String := none
  avatar : Option String := none
  verified : Bool := false
  confidence : ℚ := 1/2
  confidenceLevel : Option String := none
deriving DecidableEq, Repr

/-- `Array.prototype.join` with a separator. -/
def joinSep (sep : String) : List String → String
  | [] => ""
  | [s] => s
  | s :: rest => s ++ sep ++ joinSep sep rest

/-- The dedupe key of `deduplicateResults`:
`config.dedupeFields.map(f => result[f]).filter(Boolean).join('|')` with
`dedupeFields = ['url', 'username', 'email']`.  Note that the key is the
join of ALL truthy dedupe fields, in configured order. -/
def dedupeKey (r : Finding) : String :=
  joinSep "|"
    ((([r.url, r.username, r.email].filterMap id).filter (fun s => s != "")))

/-- `Map.prototype.get` on the `seen` map (association list, string keys). -/
def lookupSeen (k : String) : List (String × Finding) → Option Finding
  | [] => none
  | p :: rest => if p.1 = k then some p.2 else lookupSeen k rest

/-- `Map.prototype.set` on the `seen` map: overwrite in place or append. -/
def setSeen (k : String) (v : Finding) :
    List (String × Finding) → List (String × Finding)
  | [] => [(k, v)]
  | p :: rest => if p.1 = k then (k, v) :: rest else p :: setSeen k v rest

/-- The body of `deduplicateResults`: a left-to-right `filter` whose
callback mutates the `seen` map.  A finding with an empty key always
passes; the first finding of a key passes and is recorded; a later finding
of the same key passes (and replaces the record) exactly when its
confidence is strictly greater than the recorded one. -/
def dedupeGo (seen : List (String × Finding)) : List Finding → List Finding
  | [] => []
  | r :: rs =>
    if dedupeKey r = "" then r :: dedupeGo seen rs
    else
      match lookupSeen (dedupeKey r) seen with
      | none => r :: dedupeGo (setSeen (dedupeKey r) r seen) rs
      | some ex =>
        if ex.confidence < r.confidence then
          r :: dedupeGo (setSeen (dedupeKey r) r seen) rs
        else dedupeGo seen rs

/-- `SearchAggregator.deduplicateResults`. -/
def deduplicateResults (l : List Finding) : List Finding :=
  dedupeGo [] l

/-- `String.prototype.toLowerCase` (character-wise lowercasing; the ASCII
case mapping is all the engine's username comparison relies on). -/
def lowerStr (s : String) : String := String.mk (s.data.map Char.toLower)

/-- `result.username?.toLowerCase() === query.toLowerCase()`. -/
def usernameMatches (query : String) (r : Finding) : Bool :=
  match r.username with
  | none => false
  | some u => lowerStr u == lowerStr query

/-- The number of truthy richness fields,
`['displayName','bio','email','location','avatar'].filter(f => result[f]).length`. -/
def richnessCount (r : Finding) : ℕ :=
  (([r.displayName, r.bio, r.email, r.location, r.avatar]).filter truthy).length

/-- `Math.min(1, Math.max(0, score))`. -/
def clamp01 (q : ℚ) : ℚ := min 1 (max 0 q)

/-- The discrete confidence level assigned from the final confidence. -/
def levelOf (c : ℚ) : String :=
  if c ≥ 8/10 then "high" else if c ≥ 5/10 then "medium" else "low"

/-- The per-finding body of `SearchAggregator.scoreResults`, transcribed
step by step: `let score = result.confidence || 0.5` (so a zero confidence
falls back to 0.5 — JS falsiness), the verified boost, the exact-username
boost, the data-richness boost, the clamp, and the level assignment. -/
def scoreOne (query : String) (r : Finding) : Finding :=
  let s0 : ℚ := if r.confidence = 0 then 1/2 else r.confidence
  let s1 : ℚ := if r.verified then s0 + 2/10 else s0
  let s2 : ℚ := if usernameMatches query r then s1 + 3/10 else s1
  let s3 : ℚ := s2 + ((richnessCount r : ℚ) / 5) * (1/10)
  let c : ℚ := clamp01 s3
  { r with confidence := c, confidenceLevel := some (levelOf c) }

/-- `SearchAggregator.scoreResults` (a `map` that rewrites `confidence`
and sets `confidenceLevel`). -/
def scoreResults (l : List Finding) (query : String) : List Finding :=
  l.map (scoreOne query)

/-- Result Fusion as the spec names it: deduplication followed by
confidence scoring (the two calls made back to back in `runScan`). -/
def resultFusion (l : List Finding) (query : String) : List Finding :=
  scoreResults (deduplicateResults l) query

/-- Insertion step of the stable descending sort by confidence.  An
element is inserted after every element of strictly greater confidence
and before the first element of smaller-or-equal confidence. -/
def insertByConfidence (x : Finding) : List Finding → List Finding
  | [] => [x]
  | y :: ys =>
    if x.confidence < y.confidence then y :: insertByConfidence x ys
    else x :: y :: ys

/-- `scan.results.sort((a, b) => b.confidence - a.confidence)`.
ECMAScript's `Array.prototype.sort` is required to be stable and, for a
consistent comparator, to produce a list sorted by it; for the total
preorder induced by `confidence` the stable sorted rearrangement is
unique, so this stable insertion sort is observationally the same
function. -/
def sortByConfidenceDesc (l : List Finding) : List Finding :=
  l.foldr insertByConfidence []

/-- `scan.status`.  `running → completed` via finalization in `runScan`;
`running → error` only via the rejection handler attached in `startScan`. -/
inductive ScanStatus
  | running
  | completed
  | error
deriving DecidableEq, Repr

/-- `scan.stats`. -/
structure ScanStats where
  totalSources : ℕ
  completedSources : ℕ
  totalResults : ℕ
  uniqueResults : ℕ
deriving DecidableEq, Repr

/-- One entry of `scan.errors`: the per-adapter catch pushes
`{adapter, error}` (adapter named), the `startScan` rejection handler
pushes the bare message string (no adapter, modelled as `none`). -/
structure ScanErr where
  adapter : Option String
  message : String
deriving DecidableEq, Repr

/-- The Scan Job record created by `startScan`.  The random identifier is
irrelevant to the claims and omitted; times are abstract millisecond
instants. -/
structure Scan where
  query : String
  status : ScanStatus
  startTime : ℤ
  endTime : Option ℤ
  progress : ℤ
  results : List Finding
  errors : List ScanErr
  stats : ScanStats
  fromCache : Bool
deriving DecidableEq, Repr

/-- `Math.round` on a nonnegative-or-negative rational:
`Math.round(x) = ⌊x + 1/2⌋` (JS rounds half away from zero upward). -/
def jsRound (q : ℚ) : ℤ := ⌊q + 1/2⌋

/-- The Scan Job as `startScan` builds it (after `runScan` has overwritten
`stats.totalSources` with the number of selected adapters, which happens
before any other observable mutation). -/
def initScan (query : String) (t0 : ℤ) (nSelected : ℕ) : Scan :=
  { query := query
    status := ScanStatus.running
    startTime := t0
    endTime := none
    progress := 0
    results := []
    errors := []
    stats := { totalSources := nSelected, completedSources := 0,
               totalResults := 0, uniqueResults := 0 }
    fromCache := false }

/-- How one adapter's wrapped invocation settles: the race of
`adapter.search` with the per-adapter timeout either fulfills with a list
of findings or rejects (a per-adapter timeout rejects with message
"Timeout" and is handled identically to any other failure). -/
inductive AdapterOutcome
  | success (findings : List Finding)
  | failure (message : String)
deriving DecidableEq, Repr

/-- Whether an outcome is a failure. -/
def isFailureB : AdapterOutcome → Bool
  | AdapterOutcome.failure _ => true
  | AdapterOutcome.success _ => false

/-- The findings an outcome contributes to the raw result buffer. -/
def outcomeFindings : AdapterOutcome → List Finding
  | AdapterOutcome.success fs => fs
  | AdapterOutcome.failure _ => []

/-- The settle order of the fan-out: adapter names paired with how each
wrapped call settled, listed in the order the event loop runs their
continuations. -/
abbrev Settles := List (String × AdapterOutcome)

/-- All raw findings contributed by a settle sequence, in arrival order. -/
def rawFindings (l : Settles) : List Finding :=
  (l.map (fun p => outcomeFindings p.2)).flatten

/-- The mutation performed by one adapter's continuation in `runScan`:
on fulfillment the findings are pushed onto `scan.results` and counted;
on rejection an error entry is pushed; either way `completedSources` is
incremented and `progress` recomputed as
`Math.round(completedSources / totalSources * 100)`. -/
def applyOutcome (s : Scan) (name : String) (o : AdapterOutcome) : Scan :=
  match o with
  | AdapterOutcome.success fs =>
    { s with
      results := s.results ++ fs
      stats := { s.stats with
                 totalResults := s.stats.totalResults + fs.length
                 completedSources := s.stats.completedSources + 1 }
      progress := jsRound (((s.stats.completedSources : ℚ) + 1) /
                    (s.stats.totalSources : ℚ) * 100) }
  | AdapterOutcome.failure msg =>
    { s with
      errors := s.errors ++ [⟨some name, msg⟩]
      stats := { s.stats with
                 completedSources := s.stats.completedSources + 1 }
      progress := jsRound (((s.stats.completedSources : ℚ) + 1) /
                    (s.stats.totalSources : ℚ) * 100) }

/-- Folding a settle sequence over the scan. -/
def applySettles (s : Scan) (l : Settles) : Scan :=
  l.foldl (fun s p => applyOutcome s p.1 p.2) s

/-- The mutation performed by the rejection handler that `startScan`
attaches to `runScan()`: it fires when the total-timeout promise wins the
race (`timeout()` rejects), sets `status = 'error'` and pushes the bare
message.  It does not touch `endTime`, `progress` or `stats`. -/
def applyTimeout (s : Scan) : Scan :=
  { s with status := ScanStatus.error, errors := s.errors ++ [⟨none, "Timeout"⟩] }

/-- Finalization, the tail of `runScan` (reached only when `Promise.all`
wins the race): dedupe, score, stable sort descending by confidence,
record uniqueResults, mark completed, set endTime, force progress to 100. -/
def finalizeScan (query : String) (tEnd : ℤ) (s : Scan) : Scan :=
  let fused := sortByConfidenceDesc (scoreResults (deduplicateResults s.results) query)
  { s with
    results := fused
    stats := { s.stats with uniqueResults := fused.length }
    status := ScanStatus.completed
    endTime := some tEnd
    progress := 100 }

/-- The Scan Job at the end of one `runScan` execution.  `cut = none`:
all adapters settle and `Promise.all` wins the race, so finalization runs.
`cut = some k`: the total timeout fires after exactly `k` adapters have
settled; the race rejects, the rejection handler marks the job `error`,
and the remaining adapters' continuations still run afterwards (they keep
mutating the job) but finalization never does. -/
def runScanModel (query : String) (t0 tEnd : ℤ) (outcomes : Settles)
    (cut : Option ℕ) : Scan :=
  let s0 := initScan query t0 outcomes.length
  match cut with
  | none => finalizeScan query tEnd (applySettles s0 outcomes)
  | some k =>
    applySettles (applyTimeout (applySettles s0 (outcomes.take k)))
      (outcomes.drop k)

/-- The states the job passes through after each settle event, starting
from the state the previous event left. -/
def settleTrace (s : Scan) : Settles → List Scan
  | [] => []
  | p :: ps => applyOutcome s p.1 p.2 :: settleTrace (applyOutcome s p.1 p.2) ps

/-- Every observable state of the Scan Job over one `runScan` execution,
in event-loop order: creation, each settle event, and then either
finalization (`cut = none`) or the timeout rejection followed by the
late settle events (`cut = some k`). -/
def runScanTrace (query : String) (t0 tEnd : ℤ) (outcomes : Settles)
    (cut : Option ℕ) : List Scan :=
  let s0 := initScan query t0 outcomes.length
  match cut with
  | none =>
    (s0 :: settleTrace s0 outcomes) ++
      [finalizeScan query tEnd (applySettles s0 outcomes)]
  | some k =>
    let s1 := applySettles s0 (outcomes.take k)
    let s2 := applyTimeout s1
    (s0 :: settleTrace s0 (outcomes.take k)) ++
      (s2 :: settleTrace s2 (outcomes.drop k))

/-- One entry of the aggregator's result cache. -/
structure CacheEntry where
  results : List Finding
  timestamp : ℤ
deriving DecidableEq, Repr

/-- The cache `Map`, keyed by cache key. -/
abbrev Cache := List (String × CacheEntry)

/-- The cache-relevant part of `AGGREGATOR_CONFIG` (cacheTTL in seconds). -/
structure AggConfig where
  enableCache : Bool
  cacheTTL : ℤ
deriving DecidableEq, Repr

/-- `getCacheKey(query, options)` with the options already serialized by
`JSON.stringify` (the serialization itself is outside the engine's logic,
identical options serialize identically). -/
def getCacheKey (query optKey : String) : String := query ++ ":" ++ optKey

/-- `Map.prototype.get` on the cache. -/
def cacheLookup (k : String) : Cache → Option CacheEntry
  | [] => none
  | p :: rest => if p.1 = k then some p.2 else cacheLookup k rest

/-- `Map.prototype.set` on the cache (overwrite or append). -/
def cacheSet (k : String) (v : CacheEntry) : Cache → Cache
  | [] => [(k, v)]
  | p :: rest => if p.1 = k then (k, v) :: rest else p :: cacheSet k v rest

/-- `startScan` up to its synchronous return: build the job, and if
caching is enabled, a cache entry exists and is younger than the TTL,
synthesize a completed `fromCache` job (no dispatch); otherwise hand the
job to the asynchronous `runScan` (second component `true` means the
fan-out is started, i.e. adapters will be invoked).  A stale entry falls
through to dispatch without being removed.  The cache-hit path copies the
cached results and sets status/endTime but never touches `progress`. -/
def startScanModel (cfg : AggConfig) (cache : Cache) (query optKey : String)
    (now : ℤ) (nRegistered : ℕ) : Scan × Bool :=
  let s0 := initScan query now nRegistered
  if cfg.enableCache then
    match cacheLookup (getCacheKey query optKey) cache with
    | some e =>
      if now - e.timestamp < cfg.cacheTTL * 1000 then
        ({ s0 with results := e.results, status := ScanStatus.completed,
                   endTime := some now, fromCache := true }, false)
      else (s0, true)
    | none => (s0, true)
  else (s0, true)

/-- A whole scan from `startScan` through the end of `runScan`, together
with the cache it leaves behind: on a cache hit nothing is dispatched and
the cache is untouched; on a dispatch that finalizes (`cut = none`) the
fused result list is written to the cache when caching is enabled; the
timeout/error path never reaches the cache write. -/
def completeScan (cfg : AggConfig) (cache : Cache) (query optKey : String)
    (now : ℤ) (outcomes : Settles) (cut : Option ℕ) (tEnd : ℤ) :
    Scan × Cache :=
  match startScanModel cfg cache query optKey now outcomes.length with
  | (scan, false) => (scan, cache)
  | (_, true) =>
    let scan := runScanModel query now tEnd outcomes cut
    match cut with
    | none =>
      if cfg.enableCache then
        (scan, cacheSet (getCacheKey query optKey) ⟨scan.results, tEnd⟩ cache)
      else (scan, cache)
    | some _ => (scan, cache)

/-- The confidence that §4.4 of the spec (and claim C5) describes:
"start from the finding's OWN confidence", then the three boosts and the
clamp.  Stated from the spec's words, to be compared with `scoreOne`,
which instead starts from `result.confidence || 0.5`. -/
def claimScoredConfidence (query : String) (r : Finding) : ℚ :=
  min 1 (max 0 (r.confidence
    + (if r.verified then 2/10 else 0)
    + (if usernameMatches query r then 3/10 else 0)
    + ((richnessCount r : ℚ) / 5) * (1/10)))

/-- Two findings sharing one dedupe URL, confidences 0.8 and 0.6 — the
spec's own deduplication example. -/
def fDup8 : Finding := { url := some "u", confidence := 8/10 }

/-- See `fDup8`. -/
def fDup6 : Finding := { url := some "u", confidence := 6/10 }

/-- A verified finding with confidence 0.5 and no other properties. -/
def fVerified : Finding := { confidence := 1/2, verified := true }

/-- A finding whose own confidence is 0 (JS-falsy). -/
def fZeroConf : Finding := { confidence := 0 }

/-- A verified, exactly-matching finding whose base confidence already
saturates the clamp. -/
def fSatBoost : Finding := { confidence := 1, verified := true, username := some "alice" }

/-- The same finding as `fSatBoost` but unverified and non-matching. -/
def fSatPlain : Finding := { confidence := 1, verified := false, username := some "bob" }

/-- A cache-enabled configuration with the default 3600 s TTL. -/
def cfgOn : AggConfig := { enableCache := true, cacheTTL := 3600 }

/-- A cache already holding a live entry for query "alice" and serialized
options "opts". -/
def cacheHit : Cache := [("alice:opts", { results := [fDup8], timestamp := 0 })]

/-- A one-adapter settle sequence delivering one finding. -/
def settles1 : Settles := [("github", AdapterOutcome.success [fDup8])]

/-- A two-adapter settle sequence where both adapters fail. -/
def settlesFail : Settles :=
  [("github", AdapterOutcome.failure "Network error"),
   ("reddit", AdapterOutcome.failure "Timeout")]

/-- A two-adapter settle sequence whose second adapter settles only after
the total timeout has fired. -/
def settlesLate : Settles :=
  [("github", AdapterOutcome.failure "boom"),
   ("reddit", AdapterOutcome.success [fDup6])]

theorem applySettles_nil (s : Scan) : applySettles s [] = s := rfl

theorem applySettles_cons (s : Scan) (p : String × AdapterOutcome) (ps : Settles) :
    applySettles s (p :: ps) = applySettles (applyOutcome s p.1 p.2) ps := rfl

theorem applyOutcome_status (s : Scan) (n : String) (o : AdapterOutcome) :
    (applyOutcome s n o).status = s.status := by cases o <;> rfl

theorem applyOutcome_endTime (s : Scan) (n : String) (o : AdapterOutcome) :
    (applyOutcome s n o).endTime = s.endTime := by cases o <;> rfl

theorem applyOutcome_totalSources (s : Scan) (n : String) (o : AdapterOutcome) :
    (applyOutcome s n o).stats.totalSources = s.stats.totalSources := by
  cases o <;> rfl

theorem applyOutcome_completedSources (s : Scan) (n : String) (o : AdapterOutcome) :
    (applyOutcome s n o).stats.completedSources = s.stats.completedSources + 1 := by
  cases o <;> rfl

theorem applyOutcome_progress (s : Scan) (n : String) (o : AdapterOutcome) :
    (applyOutcome s n o).progress =
      jsRound (((s.stats.completedSources : ℚ) + 1) /
        (s.stats.totalSources : ℚ) * 100) := by
  cases o <;> rfl

theorem applyOutcome_results (s : Scan) (n : String) (o : AdapterOutcome) :
    (applyOutcome s n o).results = s.results ++ outcomeFindings o := by
  cases o <;> simp [applyOutcome, outcomeFindings]

theorem rawFindings_nil : rawFindings [] = [] := rfl

theorem rawFindings_cons (p : String × AdapterOutcome) (ps : Settles) :
    rawFindings (p :: ps) = outcomeFindings p.2 ++ rawFindings ps := by
  simp [rawFindings]

theorem applySettles_status (l : Settles) : ∀ s : Scan,
    (applySettles s l).status = s.status := by
  induction l with
  | nil => intro s; rfl
  | cons p ps ih =>
    intro s
    rw [applySettles_cons, ih, applyOutcome_status]

theorem applySettles_endTime (l : Settles) : ∀ s : Scan,
    (applySettles s l).endTime = s.endTime := by
  induction l with
  | nil => intro s; rfl
  | cons p ps ih =>
    intro s
    rw [applySettles_cons, ih, applyOutcome_endTime]

theorem applySettles_totalSources (l : Settles) : ∀ s : Scan,
    (applySettles s l).stats.totalSources = s.stats.totalSources := by
  induction l with
  | nil => intro s; rfl
  | cons p ps ih =>
    intro s
    rw [applySettles_cons, ih, applyOutcome_totalSources]

theorem applySettles_completedSources (l : Settles) : ∀ s : Scan,
    (applySettles s l).stats.completedSources = s.stats.completedSources + l.length := by
  induction l with
  | nil => intro s; rfl
  | cons p ps ih =>
    intro s
    rw [applySettles_cons, ih, applyOutcome_completedSources]
    simp
    ring

theorem applySettles_results (l : Settles) : ∀ s : Scan,
    (applySettles s l).results = s.results ++ rawFindings l := by
  induction l with
  | nil => intro s; simp [applySettles_nil, rawFindings_nil]
  | cons p ps ih =>
    intro s
    rw [applySettles_cons, ih, applyOutcome_results, rawFindings_cons,
      List.append_assoc]

theorem applySettles_errors_mem (l : Settles) : ∀ (s : Scan) (e : ScanErr),
    e ∈ s.errors → e ∈ (applySettles s l).errors := by
  induction l with
  | nil => intro s e h; exact h
  | cons p ps ih =>
    obtain ⟨nm, o⟩ := p
    intro s e h
    rw [applySettles_cons]
    refine ih _ e ?_
    cases o with
    | success fs => exact h
    | failure msg => simp only [applyOutcome, List.mem_append]; exact Or.inl h

theorem applySettles_errors_len_all_fail (l : Settles) : ∀ s : Scan,
    (∀ p ∈ l, isFailureB p.2 = true) →
    (applySettles s l).errors.length = s.errors.length + l.length := by
  induction l with
  | nil => intro s _; simp [applySettles_nil]
  | cons p ps ih =>
    obtain ⟨nm, o⟩ := p
    intro s h
    have hp : isFailureB o = true := h (nm, o) (List.mem_cons_self _ ps)
    cases o with
    | success fs => simp [isFailureB] at hp
    | failure msg =>
      rw [applySettles_cons,
        ih _ (fun q hq => h q (List.mem_cons_of_mem _ hq))]
      simp [applyOutcome]
      ring

theorem rawFindings_all_fail (l : Settles)
    (h : ∀ p ∈ l, isFailureB p.2 = true) : rawFindings l = [] := by
  induction l with
  | nil => rfl
  | cons p ps ih =>
    obtain ⟨nm, o⟩ := p
    rw [rawFindings_cons]
    have hp : isFailureB o = true := h (nm, o) (List.mem_cons_self _ ps)
    cases o with
    | success fs => simp [isFailureB] at hp
    | failure msg =>
      simp [outcomeFindings]
      exact ih (fun q hq => h q (List.mem_cons_of_mem _ hq))

theorem jsRound_mono {a b : ℚ} (h : a ≤ b) : jsRound a ≤ jsRound b :=
  Int.floor_le_floor (by linarith)

theorem jsRound_nonneg {a : ℚ} (h : 0 ≤ a) : 0 ≤ jsRound a :=
  Int.le_floor.mpr (by push_cast; linarith)

theorem jsRound_100 : jsRound 100 = 100 := by norm_num [jsRound]

theorem jsRound_le_100 {a : ℚ} (h : a ≤ 100) : jsRound a ≤ 100 := by
  have := jsRound_mono h
  rwa [jsRound_100] at this

theorem applySettles_progress (l : Settles) (hne : l ≠ []) : ∀ s : Scan,
    (applySettles s l).progress =
      jsRound (((s.stats.completedSources : ℚ) + l.length) /
        (s.stats.totalSources : ℚ) * 100) := by
  induction l with
  | nil => exact absurd rfl hne
  | cons p ps ih =>
    intro s
    rw [applySettles_cons]
    by_cases hps : ps = []
    · subst hps
      rw [applySettles_nil, applyOutcome_progress]
      norm_num
    · rw [ih hps, applyOutcome_completedSources, applyOutcome_totalSources]
      simp only [List.length_cons]
      push_cast
      ring_nf

theorem settleTrace_getLast (l : Settles) : ∀ s : Scan,
    (s :: settleTrace s l).getLast? = some (applySettles s l) := by
  induction l with
  | nil => intro s; rfl
  | cons p ps ih =>
    intro s
    rw [settleTrace, List.getLast?_cons_cons, ih, applySettles_cons]

theorem settleTrace_status (l : Settles) : ∀ (s : Scan), ∀ x ∈ settleTrace s l,
    x.status = s.status := by
  induction l with
  | nil => intro s x hx; simp [settleTrace] at hx
  | cons p ps ih =>
    intro s x hx
    rw [settleTrace] at hx
    rcases List.mem_cons.mp hx with h | h
    · rw [h, applyOutcome_status]
    · rw [ih _ x h, applyOutcome_status]

theorem settleTrace_endTime (l : Settles) : ∀ (s : Scan), ∀ x ∈ settleTrace s l,
    x.endTime = s.endTime := by
  induction l with
  | nil => intro s x hx; simp [settleTrace] at hx
  | cons p ps ih =>
    intro s x hx
    rw [settleTrace] at hx
    rcases List.mem_cons.mp hx with h | h
    · rw [h, applyOutcome_endTime]
    · rw [ih _ x h, applyOutcome_endTime]

theorem chain_progress (l : Settles) : ∀ s : Scan,
    (s.progress = 0 ∨
      s.progress = jsRound ((s.stats.completedSources : ℚ) /
        (s.stats.totalSources : ℚ) * 100)) →
    List.Chain' (fun a b => a.progress ≤ b.progress) (s :: settleTrace s l) := by
  induction l with
  | nil => intro s _; simp [settleTrace]
  | cons p ps ih =>
    intro s h
    rw [settleTrace]
    refine List.chain'_cons.mpr ⟨?_, ih _ (Or.inr ?_)⟩
    · rw [applyOutcome_progress]
      rcases h with h | h
      · rw [h]
        refine jsRound_nonneg ?_
        positivity
      · rw [h]
        refine jsRound_mono ?_
        rcases Nat.eq_zero_or_pos s.stats.totalSources with hT | hT
        · rw [hT]
          norm_num
        · have hT' : (0:ℚ) < (s.stats.totalSources : ℚ) := by exact_mod_cast hT
          have : (s.stats.completedSources : ℚ) ≤ (s.stats.completedSources : ℚ) + 1 := by
            linarith
          exact mul_le_mul_of_nonneg_right ((div_le_div_iff_of_pos_right hT').mpr this)
            (by norm_num)
    · rw [applyOutcome_progress, applyOutcome_completedSources, applyOutcome_totalSources]
      push_cast
      ring_nf

theorem chain_endTime (l : Settles) : ∀ s : Scan,
    List.Chain' (fun a b => a.endTime = none ∨ b.endTime = a.endTime)
      (s :: settleTrace s l) := by
  induction l with
  | nil => intro s; simp [settleTrace]
  | cons p ps ih =>
    intro s
    rw [settleTrace]
    exact List.chain'_cons.mpr ⟨Or.inr (applyOutcome_endTime s p.1 p.2), ih _⟩

theorem dedupeGo_idem (l : List Finding) : ∀ seen,
    dedupeGo seen (dedupeGo seen l) = dedupeGo seen l := by
  induction l with
  | nil => intro seen; rfl
  | cons r rs ih =>
    intro seen
    by_cases hk : dedupeKey r = ""
    · have h1 : dedupeGo seen (r :: rs) = r :: dedupeGo seen rs := by
        simp [dedupeGo, hk]
      rw [h1]
      have h2 : dedupeGo seen (r :: dedupeGo seen rs) =
          r :: dedupeGo seen (dedupeGo seen rs) := by
        simp [dedupeGo, hk]
      rw [h2, ih seen]
    · cases hl : lookupSeen (dedupeKey r) seen with
      | none =>
        have h1 : dedupeGo seen (r :: rs) =
            r :: dedupeGo (setSeen (dedupeKey r) r seen) rs := by
          simp [dedupeGo, hk, hl]
        have h2 : dedupeGo seen (r :: dedupeGo (setSeen (dedupeKey r) r seen) rs) =
            r :: dedupeGo (setSeen (dedupeKey r) r seen)
              (dedupeGo (setSeen (dedupeKey r) r seen) rs) := by
          simp [dedupeGo, hk, hl]
        rw [h1, h2, ih]
      | some ex =>
        by_cases hc : ex.confidence < r.confidence
        · have h1 : dedupeGo seen (r :: rs) =
              r :: dedupeGo (setSeen (dedupeKey r) r seen) rs := by
            simp [dedupeGo, hk, hl, hc]
          have h2 : dedupeGo seen (r :: dedupeGo (setSeen (dedupeKey r) r seen) rs) =
              r :: dedupeGo (setSeen (dedupeKey r) r seen)
                (dedupeGo (setSeen (dedupeKey r) r seen) rs) := by
            simp [dedupeGo, hk, hl, hc]
          rw [h1, h2, ih]
        · have h1 : dedupeGo seen (r :: rs) = dedupeGo seen rs := by
            simp [dedupeGo, hk, hl, hc]
          rw [h1, ih]

theorem sortByConfidenceDesc_nil : sortByConfidenceDesc [] = [] := rfl

theorem sortByConfidenceDesc_cons (a : Finding) (l : List Finding) :
    sortByConfidenceDesc (a :: l) = insertByConfidence a (sortByConfidenceDesc l) := rfl

theorem mem_insertByConfidence (x y : Finding) (l : List Finding)
    (h : y ∈ insertByConfidence x l) : y = x ∨ y ∈ l := by
  induction l with
  | nil =>
    rw [insertByConfidence] at h
    exact Or.inl (List.mem_singleton.mp h)
  | cons z zs ih =>
    rw [insertByConfidence] at h
    by_cases hc : x.confidence < z.confidence
    · rw [if_pos hc] at h
      rcases List.mem_cons.mp h with h | h
      · exact Or.inr (h ▸ List.mem_cons_self z zs)
      · rcases ih h with h | h
        · exact Or.inl h
        · exact Or.inr (List.mem_cons_of_mem z h)
    · rw [if_neg hc] at h
      rcases List.mem_cons.mp h with h | h
      · exact Or.inl h
      · exact Or.inr h

theorem pairwise_insertByConfidence (x : Finding) (l : List Finding)
    (h : List.Pairwise (fun a b => b.confidence ≤ a.confidence) l) :
    List.Pairwise (fun a b => b.confidence ≤ a.confidence)
      (insertByConfidence x l) := by
  induction l with
  | nil => simp [insertByConfidence]
  | cons z zs ih =>
    rw [insertByConfidence]
    rcases List.pairwise_cons.mp h with ⟨hz, hzs⟩
    by_cases hc : x.confidence < z.confidence
    · rw [if_pos hc]
      refine List.pairwise_cons.mpr ⟨?_, ih hzs⟩
      intro y hy
      rcases mem_insertByConfidence x y zs hy with rfl | hmem
      · exact le_of_lt hc
      · exact hz y hmem
    · rw [if_neg hc]
      refine List.pairwise_cons.mpr ⟨?_, h⟩
      intro y hy
      rcases List.mem_cons.mp hy with rfl | hmem
      · exact not_lt.mp hc
      · exact le_trans (hz y hmem) (not_lt.mp hc)

theorem pairwise_sortByConfidenceDesc (l : List Finding) :
    List.Pairwise (fun a b => b.confidence ≤ a.confidence)
      (sortByConfidenceDesc l) := by
  induction l with
  | nil => simp [sortByConfidenceDesc_nil]
  | cons a l ih =>
    rw [sortByConfidenceDesc_cons]
    exact pairwise_insertByConfidence a _ ih

theorem filter_insertByConfidence (c : ℚ) (x : Finding) (l : List Finding) :
    (insertByConfidence x l).filter (fun r => decide (r.confidence = c)) =
      (if x.confidence = c then [x] else []) ++
        l.filter (fun r => decide (r.confidence = c)) := by
  induction l with
  | nil => by_cases hx : x.confidence = c <;> simp [insertByConfidence, hx]
  | cons z zs ih =>
    rw [insertByConfidence]
    by_cases hc : x.confidence < z.confidence
    · rw [if_pos hc]
      by_cases hx : x.confidence = c
      · have hz : ¬ z.confidence = c := by
          intro hzc
          rw [hx] at hc
          rw [hzc] at hc
          exact lt_irrefl _ hc
        simp [List.filter_cons, hz, hx, ih]
      · by_cases hz : z.confidence = c <;> simp [List.filter_cons, hz, hx, ih]
    · rw [if_neg hc]
      by_cases hx : x.confidence = c <;>
        by_cases hz : z.confidence = c <;>
        simp [List.filter_cons, hx, hz]

theorem filter_sortByConfidenceDesc (c : ℚ) (l : List Finding) :
    (sortByConfidenceDesc l).filter (fun r => decide (r.confidence = c)) =
      l.filter (fun r => decide (r.confidence = c)) := by
  induction l with
  | nil => rfl
  | cons a l ih =>
    rw [sortByConfidenceDesc_cons, filter_insertByConfidence, ih]
    by_cases ha : a.confidence = c <;> simp [List.filter_cons, ha]

theorem scoreOne_confidence (query : String) (r : Finding) :
    (scoreOne query r).confidence =
      min 1 (max 0 ((if r.confidence = 0 then (1:ℚ)/2 else r.confidence)
        + (if r.verified then 2/10 else 0)
        + (if usernameMatches query r then 3/10 else 0)
        + ((richnessCount r : ℚ) / 5) * (1/10))) := by
  rw [scoreOne]
  simp only [clamp01]
  by_cases hv : r.verified <;> by_cases hm : usernameMatches query r <;>
    simp [hv, hm]

theorem scoreOne_level (query : String) (r : Finding) :
    (scoreOne query r).confidenceLevel =
      some (levelOf ((scoreOne query r).confidence)) := rfl

theorem cacheLookup_cacheSet_self (k : String) (v : CacheEntry) (c : Cache) :
    cacheLookup k (cacheSet k v c) = some v := by
  induction c with
  | nil => simp [cacheSet, cacheLookup]
  | cons p rest ih =>
    rw [cacheSet]
    by_cases hp : p.1 = k
    · rw [if_pos hp]
      simp [cacheLookup]
    · rw [if_neg hp, cacheLookup, if_neg hp]
      exact ih

theorem applyTimeout_progress (s : Scan) : (applyTimeout s).progress = s.progress := rfl

theorem applyTimeout_stats (s : Scan) : (applyTimeout s).stats = s.stats := rfl

theorem applyTimeout_endTime (s : Scan) : (applyTimeout s).endTime = s.endTime := rfl

theorem applyTimeout_status (s : Scan) : (applyTimeout s).status = ScanStatus.error := rfl

theorem applyTimeout_results (s : Scan) : (applyTimeout s).results = s.results := rfl

theorem applyTimeout_timeout_mem (s : Scan) :
    ScanErr.mk none "Timeout" ∈ (applyTimeout s).errors := by
  simp [applyTimeout]

theorem rawFindings_append (a b : Settles) :
    rawFindings (a ++ b) = rawFindings a ++ rawFindings b := by
  simp [rawFindings]

theorem initScan_progress (query : String) (t0 : ℤ) (n : ℕ) :
    (initScan query t0 n).progress = 0 := rfl

theorem initScan_endTime (query : String) (t0 : ℤ) (n : ℕ) :
    (initScan query t0 n).endTime = none := rfl

theorem initScan_status (query : String) (t0 : ℤ) (n : ℕ) :
    (initScan query t0 n).status = ScanStatus.running := rfl

theorem initScan_results (query : String) (t0 : ℤ) (n : ℕ) :
    (initScan query t0 n).results = [] := rfl

theorem initScan_errors (query : String) (t0 : ℤ) (n : ℕ) :
    (initScan query t0 n).errors = [] := rfl

theorem applySettles_init_progress_le (query : String) (t0 : ℤ) (outcomes : Settles) :
    (applySettles (initScan query t0 outcomes.length) outcomes).progress ≤ 100 := by
  by_cases h : outcomes = []
  · subst h
    rw [applySettles_nil, initScan_progress]
    norm_num
  · rw [applySettles_progress outcomes h]
    refine jsRound_le_100 ?_
    have hpos : 0 < outcomes.length := List.length_pos.mpr h
    have hn : ((outcomes.length : ℚ)) ≠ 0 := by
      exact_mod_cast Nat.pos_iff_ne_zero.mp hpos
    show ((((initScan query t0 outcomes.length).stats.completedSources : ℚ) + outcomes.length) /
        ((initScan query t0 outcomes.length).stats.totalSources : ℚ) * 100) ≤ 100
    rw [initScan]
    simp only []
    push_cast
    rw [zero_add, div_self hn, one_mul]

theorem finalizeScan_status (query : String) (tEnd : ℤ) (s : Scan) :
    (finalizeScan query tEnd s).status = ScanStatus.completed := rfl

theorem finalizeScan_endTime (query : String) (tEnd : ℤ) (s : Scan) :
    (finalizeScan query tEnd s).endTime = some tEnd := rfl

theorem finalizeScan_progress (query : String) (tEnd : ℤ) (s : Scan) :
    (finalizeScan query tEnd s).progress = 100 := rfl

theorem finalizeScan_errors (query : String) (tEnd : ℤ) (s : Scan) :
    (finalizeScan query tEnd s).errors = s.errors := rfl

theorem finalizeScan_results (query : String) (tEnd : ℤ) (s : Scan) :
    (finalizeScan query tEnd s).results =
      sortByConfidenceDesc (scoreResults (deduplicateResults s.results) query) := rfl

theorem runScanModel_none (query : String) (t0 tEnd : ℤ) (outcomes : Settles) :
    runScanModel query t0 tEnd outcomes none =
      finalizeScan query tEnd
        (applySettles (initScan query t0 outcomes.length) outcomes) := rfl

theorem runScanModel_some (query : String) (t0 tEnd : ℤ) (outcomes : Settles) (k : ℕ) :
    runScanModel query t0 tEnd outcomes (some k) =
      applySettles
        (applyTimeout (applySettles (initScan query t0 outcomes.length) (outcomes.take k)))
        (outcomes.drop k) := rfl

theorem runScanTrace_none (query : String) (t0 tEnd : ℤ) (outcomes : Settles) :
    runScanTrace query t0 tEnd outcomes none =
      (initScan query t0 outcomes.length ::
        settleTrace (initScan query t0 outcomes.length) outcomes) ++
      [finalizeScan query tEnd
        (applySettles (initScan query t0 outcomes.length) outcomes)] := rfl

theorem runScanTrace_some (query : String) (t0 tEnd : ℤ) (outcomes : Settles) (k : ℕ) :
    runScanTrace query t0 tEnd outcomes (some k) =
      (initScan query t0 outcomes.length ::
        settleTrace (initScan query t0 outcomes.length) (outcomes.take k)) ++
      (applyTimeout (applySettles (initScan query t0 outcomes.length) (outcomes.take k)) ::
        settleTrace
          (applyTimeout (applySettles (initScan query t0 outcomes.length) (outcomes.take k)))
          (outcomes.drop k)) := rfl

/-- C1 counterexample: a scan whose single selected adapter is still
outstanding when the total-scan deadline fires does NOT finalize early
with status completed; `runScan` rejects and the rejection handler marks
the job `error`, recording the bare "Timeout" message. -/
theorem claim_C1_counterexample :
    (runScanModel "alice" 0 120000 settles1 (some 0)).status ≠ ScanStatus.completed ∧
    (runScanModel "alice" 0 120000 settles1 (some 0)).status = ScanStatus.error := by
  have h : (runScanModel "alice" 0 120000 settles1 (some 0)).status = ScanStatus.error := by
    rw [runScanModel_some, applySettles_status, applyTimeout_status]
  refine ⟨?_, h⟩
  rw [h]
  decide

/-- C1 (amended): when the total-scan deadline fires while adapters are
still outstanding, the Scan Job is NOT finalized early: its status becomes
`error`, the bare message "Timeout" is appended to its error list, its end
time stays null, and the job keeps being mutated afterwards — every
adapter settling after the deadline still contributes (all successful
findings, before and after the cut, end up in `results`). -/
theorem claim_C1_amended (query : String) (t0 tEnd : ℤ) (outcomes : Settles)
    (k : ℕ) (hk : k < outcomes.length) :
    (runScanModel query t0 tEnd outcomes (some k)).status = ScanStatus.error ∧
    ScanErr.mk none "Timeout" ∈ (runScanModel query t0 tEnd outcomes (some k)).errors ∧
    (runScanModel query t0 tEnd outcomes (some k)).endTime = none ∧
    (runScanModel query t0 tEnd outcomes (some k)).results = rawFindings outcomes := by
  have hsplit : outcomes.take k ++ outcomes.drop k = outcomes := List.take_append_drop k outcomes
  refine ⟨?_, ?_, ?_, ?_⟩
  · rw [runScanModel_some, applySettles_status, applyTimeout_status]
  · rw [runScanModel_some]
    exact applySettles_errors_mem _ _ _ (applyTimeout_timeout_mem _)
  · rw [runScanModel_some, applySettles_endTime, applyTimeout_endTime,
      applySettles_endTime, initScan_endTime]
  · rw [runScanModel_some, applySettles_results, applyTimeout_results,
      applySettles_results, initScan_results, List.nil_append,
      ← rawFindings_append, hsplit]

/-- C1 witness: a concrete two-adapter scan cut after one settlement. -/
theorem claim_C1_witness :
    1 < settlesLate.length ∧
    ((runScanModel "alice" 0 120000 settlesLate (some 1)).status = ScanStatus.error ∧
     ScanErr.mk none "Timeout" ∈ (runScanModel "alice" 0 120000 settlesLate (some 1)).errors ∧
     (runScanModel "alice" 0 120000 settlesLate (some 1)).endTime = none ∧
     (runScanModel "alice" 0 120000 settlesLate (some 1)).results = rawFindings settlesLate) :=
  ⟨by decide, claim_C1_amended "alice" 0 120000 settlesLate 1 (by decide)⟩

/-- C2: when every selected adapter's wrapped search call rejects (and the
scan is not cut by the total deadline), the Scan Job still finalizes with
status `completed`, an empty result list, one error entry per failed
adapter — hence a non-empty error list — and no state of the job ever has
status `error`. -/
theorem claim_C2 (query : String) (t0 tEnd : ℤ) (outcomes : Settles)
    (hall : ∀ p ∈ outcomes, isFailureB p.2 = true) (hne : outcomes ≠ []) :
    (runScanModel query t0 tEnd outcomes none).status = ScanStatus.completed ∧
    (runScanModel query t0 tEnd outcomes none).results = [] ∧
    (runScanModel query t0 tEnd outcomes none).errors.length = outcomes.length ∧
    (runScanModel query t0 tEnd outcomes none).errors ≠ [] ∧
    ((runScanTrace query t0 tEnd outcomes none).all
      (fun s => !(s.status == ScanStatus.error))) = true := by
  have hraw : rawFindings outcomes = [] := rawFindings_all_fail outcomes hall
  have hres : (applySettles (initScan query t0 outcomes.length) outcomes).results = [] := by
    rw [applySettles_results, initScan_results, List.nil_append, hraw]
  have hlen : (runScanModel query t0 tEnd outcomes none).errors.length = outcomes.length := by
    rw [runScanModel_none, finalizeScan_errors,
      applySettles_errors_len_all_fail outcomes _ hall, initScan_errors]
    simp
  refine ⟨?_, ?_, hlen, ?_, ?_⟩
  · rw [runScanModel_none, finalizeScan_status]
  · rw [runScanModel_none, finalizeScan_results, hres]
    rfl
  · intro hnil
    rw [hnil] at hlen
    exact hne (List.length_eq_zero.mp hlen.symm)
  · rw [List.all_eq_true]
    intro s hs
    rw [runScanTrace_none] at hs
    rcases List.mem_append.mp hs with hmem | hmem
    · have : s.status = ScanStatus.running := by
        rcases List.mem_cons.mp hmem with h | h
        · rw [h, initScan_status]
        · rw [settleTrace_status _ _ _ h, initScan_status]
      rw [this]
      rfl
    · have hfin :
          s = finalizeScan query tEnd
            (applySettles (initScan query t0 outcomes.length) outcomes) :=
        List.mem_singleton.mp hmem
      rw [hfin, finalizeScan_status]
      rfl

/-- C3 counterexample: a Scan Job satisfied from the cache has status
`completed` while its progress is still 0 — the cache-hit fast path in
`startScan` never touches `progress`, so "progress equals exactly 100
whenever the status is completed" fails for cache-hit jobs. -/
theorem claim_C3_counterexample :
    (startScanModel cfgOn cacheHit "alice" "opts" 10 12).1.status = ScanStatus.completed ∧
    (startScanModel cfgOn cacheHit "alice" "opts" 10 12).1.progress ≠ 100 := by
  simp [startScanModel, initScan, cacheLookup, getCacheKey, cfgOn, cacheHit]

/-- C3 (amended): over every dispatched scan's lifetime the progress field
is monotonically non-decreasing, every state with status `completed` has
progress exactly 100, and a scan in which all adapters settle (including
one with zero selected adapters) finalizes with progress 100 and status
`completed`.  A job satisfied from the cache, however, completes with its
progress still 0 (see the counterexample). -/
theorem claim_C3_amended (query : String) (t0 tEnd : ℤ) (outcomes : Settles)
    (cut : Option ℕ) :
    List.Chain' (fun a b => a.progress ≤ b.progress)
      (runScanTrace query t0 tEnd outcomes cut) ∧
    ((runScanTrace query t0 tEnd outcomes cut).all
      (fun s => !(s.status == ScanStatus.completed) || (s.progress == 100))) = true ∧
    (runScanModel query t0 tEnd outcomes none).progress = 100 ∧
    (runScanModel query t0 tEnd outcomes none).status = ScanStatus.completed := by
  refine ⟨?_, ?_, ?_, ?_⟩
  · cases cut with
    | none =>
      rw [runScanTrace_none, List.chain'_append]
      refine ⟨chain_progress outcomes _ (Or.inl (initScan_progress query t0 _)), by simp, ?_⟩
      intro x hx y hy
      rw [settleTrace_getLast] at hx
      simp only [Option.mem_def, Option.some_inj] at hx
      simp only [List.head?_cons, Option.mem_def, Option.some_inj] at hy
      rw [← hx, ← hy, finalizeScan_progress]
      exact applySettles_init_progress_le query t0 outcomes
    | some k =>
      rw [runScanTrace_some, List.chain'_append]
      refine ⟨chain_progress _ _ (Or.inl (initScan_progress query t0 _)), ?_, ?_⟩
      · refine chain_progress _ _ ?_
        by_cases htk : outcomes.take k = []
        · left
          rw [applyTimeout_progress, htk, applySettles_nil, initScan_progress]
        · right
          rw [applyTimeout_progress, applyTimeout_stats,
            applySettles_progress _ htk, applySettles_completedSources,
            applySettles_totalSources]
          push_cast
          ring_nf
      · intro x hx y hy
        rw [settleTrace_getLast] at hx
        simp only [Option.mem_def, Option.some_inj] at hx
        simp only [List.head?_cons, Option.mem_def, Option.some_inj] at hy
        rw [← hx, ← hy, applyTimeout_progress]
  · rw [List.all_eq_true]
    intro s hs
    cases cut with
    | none =>
      rw [runScanTrace_none] at hs
      rcases List.mem_append.mp hs with hmem | hmem
      · have hrun : s.status = ScanStatus.running := by
          rcases List.mem_cons.mp hmem with h | h
          · rw [h, initScan_status]
          · rw [settleTrace_status _ _ _ h, initScan_status]
        rw [hrun]
        rfl
      · rw [List.mem_singleton.mp hmem, finalizeScan_status, finalizeScan_progress]
        rfl
    | some k =>
      rw [runScanTrace_some] at hs
      rcases List.mem_append.mp hs with hmem | hmem
      · have hrun : s.status = ScanStatus.running := by
          rcases List.mem_cons.mp hmem with h | h
          · rw [h, initScan_status]
          · rw [settleTrace_status _ _ _ h, initScan_status]
        rw [hrun]
        rfl
      · have herr : s.status = ScanStatus.error := by
          rcases List.mem_cons.mp hmem with h | h
          · rw [h, applyTimeout_status]
          · rw [settleTrace_status _ _ _ h, applyTimeout_status]
        rw [herr]
        rfl
  · rw [runScanModel_none, finalizeScan_progress]
  · rw [runScanModel_none, finalizeScan_status]

/-- C10 counterexample: a Scan Job driven to the terminal status `error`
by the total-timeout rejection handler has a null end time — the handler
never sets `endTime`, so "end time is set once the status is terminal"
fails for the `error` status. -/
theorem claim_C10_counterexample :
    (runScanModel "bob" 0 77 settles1 (some 0)).status = ScanStatus.error ∧
    (runScanModel "bob" 0 77 settles1 (some 0)).endTime = none := by
  constructor
  · rw [runScanModel_some, applySettles_status, applyTimeout_status]
  · rw [runScanModel_some, applySettles_endTime, applyTimeout_endTime,
      applySettles_endTime, initScan_endTime]

/-- C10 (amended): a Scan Job's end time, once set, is never cleared, and
every state with status `completed` has a non-null end time; a finalized
scan's end time is the finalization instant.  But a job that reaches the
terminal status `error` through the runScan rejection handler keeps a
null end time. -/
theorem claim_C10_amended (query : String) (t0 tEnd : ℤ) (outcomes : Settles)
    (cut : Option ℕ) :
    List.Chain' (fun a b => a.endTime = none ∨ b.endTime = a.endTime)
      (runScanTrace query t0 tEnd outcomes cut) ∧
    ((runScanTrace query t0 tEnd outcomes cut).all
      (fun s => !(s.status == ScanStatus.completed) || !(s.endTime == none))) = true ∧
    (runScanModel query t0 tEnd outcomes none).endTime = some tEnd ∧
    (∀ k : ℕ, (runScanModel query t0 tEnd outcomes (some k)).endTime = none) := by
  refine ⟨?_, ?_, ?_, ?_⟩
  · cases cut with
    | none =>
      rw [runScanTrace_none, List.chain'_append]
      refine ⟨chain_endTime outcomes _, by simp, ?_⟩
      intro x hx y hy
      rw [settleTrace_getLast] at hx
      simp only [Option.mem_def, Option.some_inj] at hx
      left
      rw [← hx, applySettles_endTime, initScan_endTime]
    | some k =>
      rw [runScanTrace_some, List.chain'_append]
      refine ⟨chain_endTime _ _, chain_endTime _ _, ?_⟩
      intro x hx y hy
      rw [settleTrace_getLast] at hx
      simp only [Option.mem_def, Option.some_inj] at hx
      simp only [List.head?_cons, Option.mem_def, Option.some_inj] at hy
      right
      rw [← hx, ← hy, applyTimeout_endTime]
  · rw [List.all_eq_true]
    intro s hs
    cases cut with
    | none =>
      rw [runScanTrace_none] at hs
      rcases List.mem_append.mp hs with hmem | hmem
      · have hrun : s.status = ScanStatus.running := by
          rcases List.mem_cons.mp hmem with h | h
          · rw [h, initScan_status]
          · rw [settleTrace_status _ _ _ h, initScan_status]
        rw [hrun]
        rfl
      · rw [List.mem_singleton.mp hmem, finalizeScan_status, finalizeScan_endTime]
        rfl
    | some k =>
      rw [runScanTrace_some] at hs
      rcases List.mem_append.mp hs with hmem | hmem
      · have hrun : s.status = ScanStatus.running := by
          rcases List.mem_cons.mp hmem with h | h
          · rw [h, initScan_status]
          · rw [settleTrace_status _ _ _ h, initScan_status]
        rw [hrun]
        rfl
      · have herr : s.status = ScanStatus.error := by
          rcases List.mem_cons.mp hmem with h | h
          · rw [h, applyTimeout_status]
          · rw [settleTrace_status _ _ _ h, applyTimeout_status]
        rw [herr]
        rfl
  · rw [runScanModel_none, finalizeScan_endTime]
  · intro k
    rw [runScanModel_some, applySettles_endTime, applyTimeout_endTime,
      applySettles_endTime, initScan_endTime]

theorem scoreOne_plain (query : String) (r : Finding)
    (hv : r.verified = false) (hm : usernameMatches query r = false) :
    (scoreOne query r).confidence =
      min 1 (max 0 ((if r.confidence = 0 then (1:ℚ)/2 else r.confidence)
        + ((richnessCount r : ℚ) / 5) * (1/10))) := by
  rw [scoreOne_confidence, hv, hm]
  norm_num

theorem usernameMatches_self (query : String) (r : Finding) :
    usernameMatches query ({ r with verified := true, username := some query }) = true := by
  simp [usernameMatches]

theorem scoreOne_boosted (query : String) (r : Finding) :
    (scoreOne query ({ r with verified := true, username := some query })).confidence =
      min 1 (max 0 ((if r.confidence = 0 then (1:ℚ)/2 else r.confidence)
        + ((richnessCount r : ℚ) / 5) * (1/10) + 1/2)) := by
  rw [scoreOne_confidence, usernameMatches_self]
  norm_num [richnessCount]
  ring_nf

/-- C4: the survivor rule of `deduplicateResults` is broken for one of the
two arrival orders.  With the higher-confidence duplicate first (the order
the repository's own test uses) exactly one finding, the 0.8 one,
survives; but with the lower-confidence duplicate first BOTH survive: the
`filter` callback had already accepted the earlier 0.6 finding before the
later 0.8 finding replaced it in the `seen` map, contradicting the code's
own comment "Keep the one with higher confidence". -/
theorem claim_C4_bug :
    deduplicateResults [fDup8, fDup6] = [fDup8] ∧
    deduplicateResults [fDup6, fDup8] = [fDup6, fDup8] := by
  constructor <;>
    norm_num [deduplicateResults, dedupeGo, dedupeKey, joinSep, lookupSeen,
      setSeen, fDup8, fDup6] <;> simp

/-- C5 counterexample: for a finding whose own confidence is 0,
`scoreResults` does not start from the finding's own confidence as the
claim states (which would leave it at 0, level low): `result.confidence ||
0.5` treats the 0 as falsy and starts from 0.5 instead. -/
theorem claim_C5_counterexample :
    (scoreOne "alice" fZeroConf).confidence ≠ claimScoredConfidence "alice" fZeroConf := by
  norm_num [scoreOne, claimScoredConfidence, usernameMatches, richnessCount,
    truthy, clamp01, fZeroConf]

/-- C5 (amended): `scoreResults` computes the final confidence as the
starting confidence — the finding's own confidence, except that a zero (or
missing) confidence starts at 0.5 — plus 0.2 if verified, plus 0.3 if the
username case-insensitively equals the query, plus 0.1 times the fraction
of the five richness fields that are non-empty, clamped to [0,1]; the
level is high at ≥ 0.8, medium at ≥ 0.5, else low, so final confidences
0.9, 0.6, 0.3 map to high, medium, low. -/
theorem claim_C5_amended (query : String) (r : Finding) :
    (scoreOne query r).confidence =
      min 1 (max 0 ((if r.confidence = 0 then (1:ℚ)/2 else r.confidence)
        + (if r.verified then 2/10 else 0)
        + (if usernameMatches query r then 3/10 else 0)
        + ((richnessCount r : ℚ) / 5) * (1/10))) ∧
    (scoreOne query r).confidenceLevel =
      some (if (scoreOne query r).confidence ≥ 8/10 then "high"
        else if (scoreOne query r).confidence ≥ 5/10 then "medium" else "low") ∧
    (scoreOne query ({ confidence := 9/10 } : Finding)).confidence = 9/10 ∧
    (scoreOne query ({ confidence := 9/10 } : Finding)).confidenceLevel = some "high" ∧
    (scoreOne query ({ confidence := 6/10 } : Finding)).confidenceLevel = some "medium" ∧
    (scoreOne query ({ confidence := 3/10 } : Finding)).confidenceLevel = some "low" := by
  refine ⟨scoreOne_confidence query r, ?_, ?_, ?_, ?_, ?_⟩
  · rw [scoreOne_level]
    rfl
  all_goals
    norm_num [scoreOne, usernameMatches, richnessCount, truthy, clamp01, levelOf]

/-- C8 counterexample: the fusion pipeline (dedupe then score) is not
idempotent — rescoring re-adds the verified boost, lifting an
already-fused confidence of 0.7 to 0.9. -/
theorem claim_C8_counterexample :
    resultFusion (resultFusion [fVerified] "alice") "alice" ≠
      resultFusion [fVerified] "alice" := by
  norm_num [resultFusion, scoreResults, scoreOne, deduplicateResults, dedupeGo,
    dedupeKey, joinSep, usernameMatches, richnessCount, truthy, clamp01,
    levelOf, fVerified, Finding.mk.injEq] <;> simp

/-- C8 (amended): `deduplicateResults` alone IS idempotent — applying it
to already-deduplicated output returns the list unchanged; the full fusion
pipeline is not, because `scoreResults` adds its boosts again (see the
counterexample). -/
theorem claim_C8_amended (l : List Finding) :
    deduplicateResults (deduplicateResults l) = deduplicateResults l :=
  dedupeGo_idem l []

/-- C9 counterexample: for a finding whose unboosted score already clamps
at 1 (own confidence 1), the verified, exactly-matching variant does NOT
score strictly higher than the unverified, non-matching variant — both
clamp to exactly 1. -/
theorem claim_C9_counterexample :
    ¬ ((scoreOne "alice" fSatBoost).confidence >
        (scoreOne "alice" fSatPlain).confidence) := by
  norm_num [scoreOne, usernameMatches, richnessCount, truthy, clamp01,
    lowerStr, fSatBoost, fSatPlain]
  simp

/-- C9 (amended): the verified, exactly-matching variant scores strictly
higher than the otherwise-identical unverified, non-matching finding
whenever the latter's score does not already clamp at 1; when it
saturates, both scores equal exactly 1. -/
theorem claim_C9_amended (query : String) (r : Finding)
    (hv : r.verified = false) (hm : usernameMatches query r = false)
    (h0 : 0 ≤ r.confidence) :
    (if (if r.confidence = 0 then (1:ℚ)/2 else r.confidence)
        + ((richnessCount r : ℚ) / 5) * (1/10) < 1 then
      (scoreOne query { r with verified := true, username := some query }).confidence >
        (scoreOne query r).confidence
     else
      ((scoreOne query { r with verified := true, username := some query }).confidence = 1 ∧
       (scoreOne query r).confidence = 1)) := by
  rw [scoreOne_plain query r hv hm, scoreOne_boosted query r]
  set st : ℚ := if r.confidence = 0 then (1:ℚ)/2 else r.confidence with hst
  set rc : ℚ := ((richnessCount r : ℚ) / 5) * (1/10) with hrc
  have hst0 : 0 ≤ st := by
    rw [hst]
    split
    · norm_num
    · exact h0
  have hrc0 : 0 ≤ rc := by
    rw [hrc]
    positivity
  by_cases hlt : st + rc < 1
  · rw [if_pos hlt, max_eq_right (by linarith), max_eq_right (by linarith),
      min_eq_right (le_of_lt hlt)]
    exact lt_min_iff.mpr ⟨hlt, by linarith⟩
  · push_neg at hlt
    rw [if_neg (not_lt.mpr hlt), max_eq_right (by linarith), max_eq_right (by linarith),
      min_eq_left (by linarith), min_eq_left hlt]
    exact ⟨rfl, rfl⟩

/-- C9 witness: a plain confidence-0.5 finding, far from the clamp. -/
theorem claim_C9_witness :
    (if (if fDup6.confidence = 0 then (1:ℚ)/2 else fDup6.confidence)
        + ((richnessCount fDup6 : ℚ) / 5) * (1/10) < 1 then
      (scoreOne "alice" { fDup6 with verified := true, username := some "alice" }).confidence >
        (scoreOne "alice" fDup6).confidence
     else
      ((scoreOne "alice" { fDup6 with verified := true, username := some "alice" }).confidence = 1 ∧
       (scoreOne "alice" fDup6).confidence = 1)) :=
  claim_C9_amended "alice" fDup6 rfl rfl (by norm_num [fDup6])

/-- C6: cache round-trip.  If a scan for (query, options) misses the cache
and completes with caching enabled, then a second `startScan` for the
identical pair issued while the entry is younger than the TTL returns a
completed Scan Job with `fromCache = true` and exactly the first scan's
finalized result list, without starting the fan-out (so no adapter's
`search` is invoked); once the entry's age reaches or exceeds the TTL the
read is treated as a miss and the fan-out is started. -/
theorem claim_C6 (cfg : AggConfig) (cache : Cache) (query optKey : String)
    (now tEnd t2 : ℤ) (outcomes : Settles) (n2 : ℕ)
    (hE : cfg.enableCache = true)
    (hMiss : (startScanModel cfg cache query optKey now outcomes.length).2 = true) :
    (if t2 - tEnd < cfg.cacheTTL * 1000 then
      ((startScanModel cfg (completeScan cfg cache query optKey now outcomes none tEnd).2
          query optKey t2 n2).1.fromCache = true ∧
       (startScanModel cfg (completeScan cfg cache query optKey now outcomes none tEnd).2
          query optKey t2 n2).1.results =
         (completeScan cfg cache query optKey now outcomes none tEnd).1.results ∧
       (startScanModel cfg (completeScan cfg cache query optKey now outcomes none tEnd).2
          query optKey t2 n2).2 = false ∧
       (startScanModel cfg (completeScan cfg cache query optKey now outcomes none tEnd).2
          query optKey t2 n2).1.status = ScanStatus.completed)
     else
      ((startScanModel cfg (completeScan cfg cache query optKey now outcomes none tEnd).2
          query optKey t2 n2).2 = true ∧
       (startScanModel cfg (completeScan cfg cache query optKey now outcomes none tEnd).2
          query optKey t2 n2).1.fromCache = false)) := by
  have hcs : completeScan cfg cache query optKey now outcomes none tEnd =
      (runScanModel query now tEnd outcomes none,
        cacheSet (getCacheKey query optKey)
          ⟨(runScanModel query now tEnd outcomes none).results, tEnd⟩ cache) := by
    rw [completeScan]
    rcases hS : startScanModel cfg cache query optKey now outcomes.length with ⟨sc, b⟩
    have hb : b = true := by
      rw [hS] at hMiss
      exact hMiss
    subst hb
    simp [hE]
  rw [hcs]
  by_cases hf : t2 - tEnd < cfg.cacheTTL * 1000
  · rw [if_pos hf]
    refine ⟨?_, ?_, ?_, ?_⟩ <;>
      simp [startScanModel, hE, cacheLookup_cacheSet_self, hf]
  · rw [if_neg hf]
    constructor <;>
      simp [startScanModel, initScan, hE, cacheLookup_cacheSet_self, hf]

/-- C6 witness: a concrete round trip — one successful scan at time 0
cached at time 5, re-queried at time 10, far below the 3 600 000 ms TTL. -/
theorem claim_C6_witness :
    (if (10:ℤ) - 5 < cfgOn.cacheTTL * 1000 then
      ((startScanModel cfgOn (completeScan cfgOn [] "alice" "opts" 0 settles1 none 5).2
          "alice" "opts" 10 7).1.fromCache = true ∧
       (startScanModel cfgOn (completeScan cfgOn [] "alice" "opts" 0 settles1 none 5).2
          "alice" "opts" 10 7).1.results =
         (completeScan cfgOn [] "alice" "opts" 0 settles1 none 5).1.results ∧
       (startScanModel cfgOn (completeScan cfgOn [] "alice" "opts" 0 settles1 none 5).2
          "alice" "opts" 10 7).2 = false ∧
       (startScanModel cfgOn (completeScan cfgOn [] "alice" "opts" 0 settles1 none 5).2
          "alice" "opts" 10 7).1.status = ScanStatus.completed)
     else
      ((startScanModel cfgOn (completeScan cfgOn [] "alice" "opts" 0 settles1 none 5).2
          "alice" "opts" 10 7).2 = true ∧
       (startScanModel cfgOn (completeScan cfgOn [] "alice" "opts" 0 settles1 none 5).2
          "alice" "opts" 10 7).1.fromCache = false)) :=
  claim_C6 cfgOn [] "alice" "opts" 0 5 10 settles1 7 rfl (by decide)

/-- C7: the finalized result list of a completed scan is exactly the
stable descending-by-confidence sort of the fused findings: it is pairwise
sorted by non-increasing confidence, and for every confidence value the
sublist at that confidence is unchanged — equal-confidence findings retain
their original arrival order. -/
theorem claim_C7 (query : String) (t0 tEnd : ℤ) (outcomes : Settles) :
    (runScanModel query t0 tEnd outcomes none).results =
      sortByConfidenceDesc (scoreResults (deduplicateResults (rawFindings outcomes)) query) ∧
    List.Pairwise (fun a b => b.confidence ≤ a.confidence)
      ((runScanModel query t0 tEnd outcomes none).results) ∧
    ∀ c : ℚ,
      ((runScanModel query t0 tEnd outcomes none).results).filter
          (fun r => decide (r.confidence = c)) =
        (scoreResults (deduplicateResults (rawFindings outcomes)) query).filter
          (fun r => decide (r.confidence = c)) := by
  have hres : (runScanModel query t0 tEnd outcomes none).results =
      sortByConfidenceDesc (scoreResults (deduplicateResults (rawFindings outcomes)) query) := by
    rw [runScanModel_none, finalizeScan_results, applySettles_results, initScan_results,
      List.nil_append]
  refine ⟨hres, ?_, ?_⟩
  · rw [hres]
    exact pairwise_sortByConfidenceDesc _
  · intro c
    rw [hres]
    exact filter_sortByConfidenceDesc c _

/-- C2 witness: a concrete scan whose two adapters both fail. -/
theorem claim_C2_witness :
    (runScanModel "alice" 0 9 settlesFail none).status = ScanStatus.completed ∧
    (runScanModel "alice" 0 9 settlesFail none).results = [] ∧
    (runScanModel "alice" 0 9 settlesFail none).errors.length = settlesFail.length ∧
    (runScanModel "alice" 0 9 settlesFail none).errors ≠ [] ∧
    ((runScanTrace "alice" 0 9 settlesFail none).all
      (fun s => !(s.status == ScanStatus.error))) = true :=
  claim_C2 "alice" 0 9 settlesFail (by decide) (by decide)

end Osint
